import Mathlib

/-!
Verification of the session-tracker core: dose model, tolerance model,
session store queries and persistence, shallowly embedded from the source.
JavaScript numbers are modelled as real numbers, timestamps included;
optional values (TypeScript `undefined`) are modelled as `Option`.
-/

/-- One discrete intake record (`ConsumptionEvent` in types.ts). -/
structure ConsumptionEvent where
  timestamp : ℝ
  weightGrams : ℝ
  thcPercent : ℝ
  method : String
  notes : Option String

/-- Free-text environment tags (`SessionContext` in types.ts). -/
@[ext]
structure SessionContext where
  place : Option String
  weather : Option String
  noise : Option String
  light : Option String
  music : Option String
  activity : Option String

/-- Model of `SocialContext` in types.ts. -/
structure SocialContext where
  numPeopleSharing : Option ℝ

/-- Model of `UserState` in types.ts. -/
structure UserState where
  lastMeal : Option String
  mood : Option String
  intention : Option String

/-- Model of `GeoLocation` in types.ts. -/
structure GeoLocation where
  lat : ℝ
  lon : ℝ

/-- The inline `baseSubstance` object type of `Session`. -/
structure BaseSubstance where
  type : Option String

/-- Model of `Session` in types.ts. -/
@[ext]
structure Session where
  id : String
  startTime : ℝ
  endTime : Option ℝ
  active : Bool
  geo : Option GeoLocation
  timeOfDay : Option String
  baseSubstance : Option BaseSubstance
  context : SessionContext
  social : SocialContext
  user : UserState
  supplements : List String
  effects : List String
  notes : Option String
  consumptions : List ConsumptionEvent

/-- Model of `doseFromEvent` from utils: clamp THC% into [0,100], take the fraction of
the weight, divide by the effective sharer count `max 1 (sharers ?? 1)`. -/
noncomputable def doseFromEvent (ev : ConsumptionEvent) (sharers : Option ℝ) : ℝ :=
  let thcFrac := max 0 (min ev.thcPercent 100) / 100
  let baseDose := ev.weightGrams * thcFrac
  let people := max 1 (sharers.getD 1)
  baseDose / people

/-- The decay half-life used by `computeTolerance`, in milliseconds (48h). -/
noncomputable def halfLifeMs : ℝ := 48 * 3600 * 1000

/-- The decay rate `lambda = ln 2 / halfLifeMs` from `computeTolerance`. -/
noncomputable def lambda : ℝ := Real.log 2 / halfLifeMs

/-- The per-event contribution inside the loop of `computeTolerance`:
`doseFromEvent(ev, sharers) * exp(-lambda * max 0 (now - ev.timestamp))`. -/
noncomputable def contribution (now : ℝ) (sharers : Option ℝ) (ev : ConsumptionEvent) : ℝ :=
  doseFromEvent ev sharers * Real.exp (-lambda * max 0 (now - ev.timestamp))

/-- The accumulated `score` of `computeTolerance`, before presentation
rounding: the nested loop over sessions and their consumption events. -/
noncomputable def rawScore (now : ℝ) (sessions : List Session) : ℝ :=
  sessions.foldl
    (fun score s =>
      s.consumptions.foldl
        (fun acc ev => acc + contribution now s.social.numPeopleSharing ev) score)
    0

/-- Model of `computeTolerance` from utils: the raw score scaled by 1000, rounded
(JS `Math.round`, i.e. floor of x + 1/2), then divided by 10. -/
noncomputable def computeTolerance (now : ℝ) (sessions : List Session) : ℝ :=
  ((round (rawScore now sessions * 1000) : ℤ) : ℝ) / 10

/-- Model of `computeSessionDose` from utils: reduce of `doseFromEvent` over
the consumption events with the session-level sharer count. -/
noncomputable def computeSessionDose (s : Session) : ℝ :=
  s.consumptions.foldl (fun acc ev => acc + doseFromEvent ev s.social.numPeopleSharing) 0

section SumLemmas

/-- A left fold that only adds `f` of each element is the initial value plus
the sum of the mapped list. -/
theorem foldl_add_eq {α : Type} (f : α → ℝ) (c : ℝ) (l : List α) :
    l.foldl (fun acc x => acc + f x) c = c + (l.map f).sum := by
  induction l generalizing c with
  | nil => simp
  | cons x t ih => simp [ih, add_assoc]

/-- The tolerance accumulator equals a nested sum over sessions and events. -/
theorem rawScore_eq_sum (now : ℝ) (sessions : List Session) :
    rawScore now sessions =
      (sessions.map
        (fun s => (s.consumptions.map (contribution now s.social.numPeopleSharing)).sum)).sum := by
  unfold rawScore
  induction sessions with
  | nil => simp
  | cons s t ih =>
      simp only [List.foldl_cons, List.map_cons, List.sum_cons]
      rw [foldl_add_eq]
      rw [show ∀ c : ℝ, t.foldl
            (fun score s =>
              s.consumptions.foldl
                (fun acc ev => acc + contribution now s.social.numPeopleSharing ev) score) c
            = c + (t.map
                (fun s => (s.consumptions.map (contribution now s.social.numPeopleSharing)).sum)).sum
        from ?_]
      · ring
      · intro c
        induction t generalizing c with
        | nil => simp
        | cons u v ihv => simp [List.foldl_cons, foldl_add_eq, ihv, add_assoc]

end SumLemmas

section DoseModel

/-- C3: `doseFromEvent` equals weight times the clamped THC fraction divided
by the effective sharer count; out-of-range THC behaves like the nearest
bound, and an undefined or non-positive sharer count behaves like 1. -/
theorem doseFromEvent_spec (ev : ConsumptionEvent) (sharers : Option ℝ) :
    doseFromEvent ev sharers
        = ev.weightGrams * max 0 (min ev.thcPercent 100) / 100 / max 1 (sharers.getD 1)
      ∧ (ev.thcPercent < 0 →
          doseFromEvent ev sharers = doseFromEvent { ev with thcPercent := 0 } sharers)
      ∧ (100 < ev.thcPercent →
          doseFromEvent ev sharers = doseFromEvent { ev with thcPercent := 100 } sharers)
      ∧ (∀ x : ℝ, x ≤ 0 → doseFromEvent ev (some x) = doseFromEvent ev (some 1))
      ∧ doseFromEvent ev none = doseFromEvent ev (some 1) := by
  refine ⟨?_, ?_, ?_, ?_, ?_⟩
  · unfold doseFromEvent
    ring
  · intro h
    unfold doseFromEvent
    rw [min_eq_left (by linarith : ev.thcPercent ≤ 100),
        max_eq_left h.le]
    simp
  · intro h
    unfold doseFromEvent
    rw [min_eq_right (by linarith : (100 : ℝ) ≤ ev.thcPercent)]
    simp
  · intro x hx
    unfold doseFromEvent
    rw [show (some x).getD 1 = x from rfl, show (some (1 : ℝ)).getD 1 = 1 from rfl,
        max_eq_left (by linarith : x ≤ 1), max_self]
  · rfl

/-- Witness for C3: a -5% THC event doses exactly like a 0% THC event. -/
theorem doseFromEvent_spec_witness :
    doseFromEvent ⟨0, 2, -5, "Joint", none⟩ (some 1)
      = doseFromEvent ⟨0, 2, 0, "Joint", none⟩ (some 1) :=
  (doseFromEvent_spec ⟨0, 2, -5, "Joint", none⟩ (some 1)).2.1 (by norm_num)

/-- C4: `computeSessionDose` sums `doseFromEvent` over the events
with the session-level sharer count, and is additive in the event list. -/
theorem computeSessionDose_spec (s : Session) (a b : List ConsumptionEvent) :
    computeSessionDose s
        = (s.consumptions.map (fun ev => doseFromEvent ev s.social.numPeopleSharing)).sum
      ∧ computeSessionDose { s with consumptions := a ++ b }
          = computeSessionDose { s with consumptions := a }
            + computeSessionDose { s with consumptions := b } := by
  constructor
  · unfold computeSessionDose
    rw [foldl_add_eq]
    ring
  · unfold computeSessionDose
    simp only [foldl_add_eq, List.map_append, List.sum_append]
    ring

end DoseModel

section ToleranceModel

/-- C1: `computeTolerance` is the nested sum of decayed dose contributions,
scaled by 1000, rounded, and divided by 10; an event whose timestamp is at
or after `now` contributes its full undecayed dose. -/
theorem computeTolerance_spec (now : ℝ) (sessions : List Session) :
    computeTolerance now sessions
        = ((round
            ((sessions.map
              (fun s => (s.consumptions.map
                (fun ev => doseFromEvent ev s.social.numPeopleSharing
                  * Real.exp (-lambda * max 0 (now - ev.timestamp)))).sum)).sum
              * 1000) : ℤ) : ℝ) / 10
      ∧ ∀ (sharers : Option ℝ) (ev : ConsumptionEvent),
          now ≤ ev.timestamp →
            contribution now sharers ev = doseFromEvent ev sharers := by
  constructor
  · unfold computeTolerance
    rw [rawScore_eq_sum]
    rfl
  · intro sharers ev h
    unfold contribution
    rw [max_eq_left (by linarith : now - ev.timestamp ≤ 0)]
    simp

/-- Witness for C1: an event timestamped after `now` contributes its full
undecayed dose. -/
theorem computeTolerance_spec_witness :
    contribution 0 (some 1) ⟨5, 1, 100, "Joint", none⟩
      = doseFromEvent ⟨5, 1, 100, "Joint", none⟩ (some 1) :=
  (computeTolerance_spec 0 []).2 (some 1) ⟨5, 1, 100, "Joint", none⟩ (by norm_num)

end ToleranceModel

section Decay

/-- Sum of the per-event weighted doses `dose * exp(lambda * timestamp)`;
factoring `rawScore` through this isolates the dependence on `now`. -/
noncomputable def weightedSum (sessions : List Session) : ℝ :=
  (sessions.map
    (fun s => (s.consumptions.map
      (fun ev => doseFromEvent ev s.social.numPeopleSharing
        * Real.exp (lambda * ev.timestamp))).sum)).sum

theorem lambda_pos : 0 < lambda := by
  unfold lambda halfLifeMs
  exact div_pos (Real.log_pos (by norm_num)) (by norm_num)

theorem doseFromEvent_nonneg (ev : ConsumptionEvent) (sharers : Option ℝ)
    (h : 0 ≤ ev.weightGrams) : 0 ≤ doseFromEvent ev sharers := by
  simp only [doseFromEvent]
  apply div_nonneg
  · exact mul_nonneg h (div_nonneg (le_max_left _ _) (by norm_num))
  · exact le_trans zero_le_one (le_max_left _ _)

theorem list_sum_nonneg_of_mem (l : List ℝ) (h : ∀ x ∈ l, 0 ≤ x) : 0 ≤ l.sum := by
  induction l with
  | nil => simp
  | cons a t ih =>
      simp only [List.sum_cons]
      have ha := h a (List.mem_cons_self a t)
      have ht := ih (fun x hx => h x (List.mem_cons_of_mem _ hx))
      linarith

theorem list_sum_pos_of_mem (l : List ℝ) (h : ∀ x ∈ l, 0 ≤ x) {x : ℝ}
    (hx : x ∈ l) (hp : 0 < x) : 0 < l.sum := by
  induction l with
  | nil => cases hx
  | cons a t ih =>
      simp only [List.sum_cons]
      rcases List.mem_cons.mp hx with rfl | hmem
      · have := list_sum_nonneg_of_mem t (fun y hy => h y (List.mem_cons_of_mem _ hy))
        linarith
      · have ha := h a (List.mem_cons_self a t)
        have := ih (fun y hy => h y (List.mem_cons_of_mem _ hy)) hmem
        linarith

theorem weightedSum_pos (sessions : List Session)
    (hw : ∀ s ∈ sessions, ∀ ev ∈ s.consumptions, 0 ≤ ev.weightGrams)
    (hpos : ∃ s ∈ sessions, ∃ ev ∈ s.consumptions,
      0 < doseFromEvent ev s.social.numPeopleSharing) :
    0 < weightedSum sessions := by
  obtain ⟨s, hs, ev, hev, hd⟩ := hpos
  unfold weightedSum
  have hterm : ∀ u ∈ sessions,
      (0:ℝ) ≤ (u.consumptions.map
        (fun e => doseFromEvent e u.social.numPeopleSharing
          * Real.exp (lambda * e.timestamp))).sum := by
    intro u hu
    apply list_sum_nonneg_of_mem
    intro y hy
    rw [List.mem_map] at hy
    obtain ⟨e, he, rfl⟩ := hy
    exact mul_nonneg (doseFromEvent_nonneg _ _ (hw u hu e he)) (Real.exp_pos _).le
  apply list_sum_pos_of_mem _ ?_ (List.mem_map_of_mem _ hs) ?_
  · intro y hy
    rw [List.mem_map] at hy
    obtain ⟨u, hu, rfl⟩ := hy
    exact hterm u hu
  · apply list_sum_pos_of_mem _ ?_ (List.mem_map_of_mem _ hev) ?_
    · intro y hy
      rw [List.mem_map] at hy
      obtain ⟨e, he, rfl⟩ := hy
      exact mul_nonneg (doseFromEvent_nonneg _ _ (hw s hs e he)) (Real.exp_pos _).le
    · exact mul_pos hd (Real.exp_pos _)

theorem contribution_past (now : ℝ) (sharers : Option ℝ) (ev : ConsumptionEvent)
    (h : ev.timestamp ≤ now) :
    contribution now sharers ev
      = Real.exp (-lambda * now)
        * (doseFromEvent ev sharers * Real.exp (lambda * ev.timestamp)) := by
  unfold contribution
  rw [max_eq_right (by linarith : (0:ℝ) ≤ now - ev.timestamp),
      show -lambda * (now - ev.timestamp) = -lambda * now + lambda * ev.timestamp by ring,
      Real.exp_add]
  ring

theorem events_factor (now : ℝ) (sharers : Option ℝ) (l : List ConsumptionEvent)
    (h : ∀ ev ∈ l, ev.timestamp ≤ now) :
    (l.map (contribution now sharers)).sum
      = Real.exp (-lambda * now)
        * (l.map (fun ev => doseFromEvent ev sharers
            * Real.exp (lambda * ev.timestamp))).sum := by
  induction l with
  | nil => simp
  | cons e r ihr =>
      simp only [List.map_cons, List.sum_cons, mul_add]
      rw [contribution_past now _ e (h e (List.mem_cons_self e r)),
          ihr (fun x hx => h x (List.mem_cons_of_mem _ hx))]

theorem rawScore_factor (now : ℝ) (sessions : List Session)
    (h : ∀ s ∈ sessions, ∀ ev ∈ s.consumptions, ev.timestamp ≤ now) :
    rawScore now sessions = Real.exp (-lambda * now) * weightedSum sessions := by
  rw [rawScore_eq_sum]
  unfold weightedSum
  induction sessions with
  | nil => simp
  | cons s t ih =>
      simp only [List.map_cons, List.sum_cons, mul_add]
      rw [ih (fun u hu => h u (List.mem_cons_of_mem _ hu))]
      rw [events_factor now _ s.consumptions (h s (List.mem_cons_self s t))]

/-- C2 (amended): once every event is in the past and some event carries a
positive dose, the pre-rounding score is strictly decreasing in `now`, and
the rounded `computeTolerance` is non-increasing in `now`. -/
theorem computeTolerance_decreasing (sessions : List Session) (now1 now2 : ℝ)
    (hw : ∀ s ∈ sessions, ∀ ev ∈ s.consumptions, 0 ≤ ev.weightGrams)
    (hpast : ∀ s ∈ sessions, ∀ ev ∈ s.consumptions, ev.timestamp ≤ now1)
    (hlt : now1 < now2)
    (hpos : ∃ s ∈ sessions, ∃ ev ∈ s.consumptions,
      0 < doseFromEvent ev s.social.numPeopleSharing) :
    rawScore now2 sessions < rawScore now1 sessions
      ∧ computeTolerance now2 sessions ≤ computeTolerance now1 sessions := by
  have hpast2 : ∀ s ∈ sessions, ∀ ev ∈ s.consumptions, ev.timestamp ≤ now2 :=
    fun s hs ev hev => le_trans (hpast s hs ev hev) hlt.le
  have hW := weightedSum_pos sessions hw hpos
  have hexp : Real.exp (-lambda * now2) < Real.exp (-lambda * now1) := by
    apply Real.exp_lt_exp.mpr
    have := lambda_pos
    nlinarith
  have hstrict : rawScore now2 sessions < rawScore now1 sessions := by
    rw [rawScore_factor now1 sessions hpast, rawScore_factor now2 sessions hpast2]
    exact mul_lt_mul_of_pos_right hexp hW
  refine ⟨hstrict, ?_⟩
  unfold computeTolerance
  have hr : round (rawScore now2 sessions * 1000) ≤ round (rawScore now1 sessions * 1000) := by
    rw [round_eq, round_eq]
    exact Int.floor_le_floor (by linarith)
  have hc : ((round (rawScore now2 sessions * 1000) : ℤ) : ℝ)
      ≤ ((round (rawScore now1 sessions * 1000) : ℤ) : ℝ) := by exact_mod_cast hr
  linarith

end Decay

section DemoData

/-- A session with the given identity and timing, default context, one
sharer, and the given consumption events. -/
noncomputable def mkSession (i : String) (start : ℝ) (endT : Option ℝ) (act : Bool)
    (cons : List ConsumptionEvent) : Session :=
  ⟨i, start, endT, act, none, none, none,
   ⟨none, none, none, none, none, none⟩, ⟨some 1⟩, ⟨none, none, none⟩,
   [], [], none, cons⟩

/-- One solo session with a single 1 g, 100% THC event at timestamp 0. -/
noncomputable def demoSession : Session :=
  mkSession "a" 0 none false [⟨0, 1, 100, "Joint", none⟩]

theorem demo_dose : doseFromEvent ⟨0, 1, 100, "Joint", none⟩ (some 1) = 1 := by
  simp only [doseFromEvent, Option.getD_some]
  rw [min_self, max_eq_right (by norm_num : (0:ℝ) ≤ 100), max_self]
  norm_num

theorem demo_rawScore_zero : rawScore 0 [demoSession] = 1 := by
  rw [rawScore_eq_sum]
  simp only [demoSession, mkSession, List.map_cons, List.map_nil, List.sum_cons,
    List.sum_nil, add_zero, contribution]
  rw [demo_dose]
  norm_num

theorem demo_rawScore_one : rawScore 1 [demoSession] = Real.exp (-lambda) := by
  rw [rawScore_eq_sum]
  simp only [demoSession, mkSession, List.map_cons, List.map_nil, List.sum_cons,
    List.sum_nil, add_zero, contribution]
  rw [demo_dose]
  rw [show ((1:ℝ) - 0) = 1 by norm_num, max_eq_right (by norm_num : (0:ℝ) ≤ 1)]
  simp

end DemoData

section DecayWitness

/-- Witness for C2 (amended): on the demo session the raw score strictly
decreases from `now = 0` to `now = 1`. -/
theorem computeTolerance_decreasing_witness :
    rawScore 1 [demoSession] < rawScore 0 [demoSession] := by
  refine (computeTolerance_decreasing [demoSession] 0 1 ?_ ?_ (by norm_num) ?_).1
  · intro s hs ev hev
    rw [List.mem_singleton] at hs
    subst hs
    simp only [demoSession, mkSession, List.mem_singleton] at hev
    subst hev
    norm_num
  · intro s hs ev hev
    rw [List.mem_singleton] at hs
    subst hs
    simp only [demoSession, mkSession, List.mem_singleton] at hev
    subst hev
    norm_num
  · refine ⟨demoSession, List.mem_singleton_self _, ⟨0, 1, 100, "Joint", none⟩, ?_, ?_⟩
    · simp [demoSession, mkSession]
    · show 0 < doseFromEvent _ (Session.social demoSession).numPeopleSharing
      simp only [demoSession, mkSession]
      rw [demo_dose]
      norm_num

theorem lambda_le : lambda ≤ 1 / 172800000 := by
  have hlog : Real.log 2 ≤ 1 := by
    have := Real.log_le_sub_one_of_pos (by norm_num : (0:ℝ) < 2)
    linarith
  unfold lambda halfLifeMs
  rw [show (48:ℝ) * 3600 * 1000 = 172800000 by norm_num]
  exact (div_le_div_iff_of_pos_right (by norm_num : (0:ℝ) < 172800000)).mpr hlog

theorem round_exp_neg_lambda : round (Real.exp (-lambda) * 1000) = 1000 := by
  have hub : Real.exp (-lambda) ≤ 1 := by
    rw [show (1:ℝ) = Real.exp 0 by rw [Real.exp_zero]]
    exact Real.exp_le_exp.mpr (by linarith [lambda_pos])
  have hlb : 1 - lambda ≤ Real.exp (-lambda) := by
    have := Real.add_one_le_exp (-lambda)
    linarith
  rw [round_eq]
  refine Int.floor_eq_iff.mpr ⟨?_, ?_⟩
  · push_cast
    have := lambda_le
    nlinarith
  · push_cast
    nlinarith

/-- Counterexample to C2 as stated: on the demo session (single positive-dose
event at timestamp 0), moving `now` from 0 to 1 leaves the rounded
`computeTolerance` unchanged, so it is not strictly decreasing. -/
theorem computeTolerance_not_strict :
    (0:ℝ) < 1 ∧ computeTolerance 1 [demoSession] = computeTolerance 0 [demoSession] := by
  refine ⟨by norm_num, ?_⟩
  unfold computeTolerance
  rw [demo_rawScore_zero, demo_rawScore_one, round_exp_neg_lambda,
      show ((1:ℝ) * 1000) = ((1000:ℤ) : ℝ) by norm_num, round_intCast]

end DecayWitness

section SessionStore

/-- Model of `addConsumption` from the app component: find the active
session; if none exists return the list unchanged, otherwise append the
event to the consumption list of that session. -/
noncomputable def addConsumption (ev : ConsumptionEvent) (sessions : List Session) :
    List Session :=
  match sessions.find? (fun s => s.active) with
  | none => sessions
  | some a => sessions.map
      (fun s => if s.id = a.id then { s with consumptions := s.consumptions ++ [ev] } else s)

/-- Model of `updateContext` from the app component: if an active session exists,
replace its descriptive fields wholesale; otherwise leave the list alone. -/
noncomputable def updateContext (c : SessionContext) (so : SocialContext) (u : UserState)
    (supp eff : List String) (n : String) (sessions : List Session) : List Session :=
  match sessions.find? (fun s => s.active) with
  | none => sessions
  | some a => sessions.map
      (fun s => if s.id = a.id then
          { s with context := c, social := so, user := u,
                   supplements := supp, effects := eff, notes := some n }
        else s)

/-- Model of `endSession` from the app component: if an active session exists, clear
its active flag and stamp its end time; otherwise leave the list alone. -/
noncomputable def endSession (now : ℝ) (sessions : List Session) : List Session :=
  match sessions.find? (fun s => s.active) with
  | none => sessions
  | some a => sessions.map
      (fun s => if s.id = a.id then { s with active := false, endTime := some now } else s)

/-- C7: with no active session in the store, add-consumption, update-context
and end-session all leave the session list exactly unchanged. -/
theorem inactive_noops (sessions : List Session) (ev : ConsumptionEvent)
    (c : SessionContext) (so : SocialContext) (u : UserState)
    (supp eff : List String) (n : String) (now : ℝ)
    (h : ∀ s ∈ sessions, s.active = false) :
    addConsumption ev sessions = sessions
      ∧ updateContext c so u supp eff n sessions = sessions
      ∧ endSession now sessions = sessions := by
  have hfind : sessions.find? (fun s => s.active) = none := by
    rw [List.find?_eq_none]
    intro s hs
    simp [h s hs]
  refine ⟨?_, ?_, ?_⟩
  · unfold addConsumption
    rw [hfind]
  · unfold updateContext
    rw [hfind]
  · unfold endSession
    rw [hfind]

/-- Witness for C7: on a store holding one ended session, the three mutating
operations are no-ops. -/
theorem inactive_noops_witness :
    addConsumption ⟨0, 1, 20, "Joint", none⟩ [demoSession] = [demoSession]
      ∧ updateContext ⟨none, none, none, none, none, none⟩ ⟨some 2⟩ ⟨none, none, none⟩
          [] [] "hi" [demoSession] = [demoSession]
      ∧ endSession 5 [demoSession] = [demoSession] := by
  refine inactive_noops [demoSession] _ _ _ _ _ _ _ _ ?_
  intro s hs
  rw [List.mem_singleton] at hs
  subst hs
  rfl

end SessionStore

section IntervalQuery

/-- Model of `intervalSincePrevious` from utils: `undefined` for a
non-positive or out-of-range index, else the clamped gap between the start
of this session and the end-or-start of the previous one. -/
noncomputable def intervalSincePrevious (sessions : List Session) (index : ℤ) :
    Option ℝ :=
  if index ≤ 0 then none
  else
    match sessions[index.toNat]?, sessions[index.toNat - 1]? with
    | some curr, some prev =>
        some (max 0 (curr.startTime - (prev.endTime.getD prev.startTime)))
    | some _, none => none
    | none, _ => none

/-- C8: `intervalSincePrevious` is `undefined` at index 0 (or below) and past
the end of the list; at an in-range positive index whose previous session
ends (or, lacking an end, starts) no later than this one starts, it is
exactly the difference of those two times. -/
theorem intervalSincePrevious_spec (sessions : List Session) (index : ℤ) :
    (index ≤ 0 → intervalSincePrevious sessions index = none)
      ∧ ((sessions.length : ℤ) ≤ index → intervalSincePrevious sessions index = none)
      ∧ (∀ curr prev, 0 < index →
          sessions[index.toNat]? = some curr →
          sessions[index.toNat - 1]? = some prev →
          prev.endTime.getD prev.startTime ≤ curr.startTime →
          intervalSincePrevious sessions index
            = some (curr.startTime - prev.endTime.getD prev.startTime)) := by
  refine ⟨?_, ?_, ?_⟩
  · intro h
    unfold intervalSincePrevious
    rw [if_pos h]
  · intro h
    unfold intervalSincePrevious
    by_cases h0 : index ≤ 0
    · rw [if_pos h0]
    · rw [if_neg h0]
      have hlen : sessions.length ≤ index.toNat := by
        omega
      rw [List.getElem?_eq_none hlen]
  · intro curr prev hpos hcurr hprev hle
    unfold intervalSincePrevious
    rw [if_neg (by omega), hcurr, hprev]
    dsimp only
    rw [max_eq_right (by linarith)]

/-- Witness for C8: a session starting exactly one hour after the previous
end of the previous one yields a gap of 3600000 ms, and out-of-range and zero
indices yield none. -/
theorem intervalSincePrevious_spec_witness :
    intervalSincePrevious
        [mkSession "a" 0 (some 1000) false [], mkSession "b" 3601000 none false []] 1
      = some 3600000
      ∧ intervalSincePrevious
          [mkSession "a" 0 (some 1000) false [], mkSession "b" 3601000 none false []] 0
        = none
      ∧ intervalSincePrevious
          [mkSession "a" 0 (some 1000) false [], mkSession "b" 3601000 none false []] 5
        = none := by
  refine ⟨?_, ?_, ?_⟩
  · have h := (intervalSincePrevious_spec
      [mkSession "a" 0 (some 1000) false [], mkSession "b" 3601000 none false []] 1).2.2
      (mkSession "b" 3601000 none false []) (mkSession "a" 0 (some 1000) false [])
      (by norm_num) rfl rfl ?_
    · rw [h]
      norm_num [mkSession]
    · norm_num [mkSession]
  · exact (intervalSincePrevious_spec _ 0).1 (by norm_num)
  · exact (intervalSincePrevious_spec _ 5).2.1 (by norm_num)

/-- C10: whenever `intervalSincePrevious` returns a number it is
non-negative, and on overlapping (out-of-order) sessions where the current
session starts before the end-or-start of the previous one, it returns 0. -/
theorem intervalSincePrevious_nonneg (sessions : List Session) (index : ℤ) :
    (∀ g, intervalSincePrevious sessions index = some g → 0 ≤ g)
      ∧ (∀ curr prev, 0 < index →
          sessions[index.toNat]? = some curr →
          sessions[index.toNat - 1]? = some prev →
          curr.startTime < prev.endTime.getD prev.startTime →
          intervalSincePrevious sessions index = some 0) := by
  constructor
  · intro g hg
    unfold intervalSincePrevious at hg
    by_cases h0 : index ≤ 0
    · rw [if_pos h0] at hg
      cases hg
    · rw [if_neg h0] at hg
      rcases hc : sessions[index.toNat]? with _ | curr <;> rw [hc] at hg
      · cases hg
      · rcases hp : sessions[index.toNat - 1]? with _ | prev <;> rw [hp] at hg
        · cases hg
        · simp only [Option.some.injEq] at hg
          rw [← hg]
          exact le_max_left _ _
  · intro curr prev hpos hcurr hprev hlt
    unfold intervalSincePrevious
    rw [if_neg (by omega), hcurr, hprev]
    dsimp only
    rw [max_eq_left (by linarith)]

/-- Witness for C10: with the previous session ending after the current one
starts, the gap is clamped to 0. -/
theorem intervalSincePrevious_nonneg_witness :
    intervalSincePrevious
        [mkSession "a" 0 (some 3600000) false [], mkSession "b" 1000 none false []] 1
      = some 0 := by
  have h := (intervalSincePrevious_nonneg
    [mkSession "a" 0 (some 3600000) false [], mkSession "b" 1000 none false []] 1).2
    (mkSession "b" 1000 none false []) (mkSession "a" 0 (some 3600000) false [])
    (by norm_num) rfl rfl ?_
  · exact h
  · norm_num [mkSession]

end IntervalQuery

section DurationFormat

/-- The JS space-join of the parts list of `formatDuration`. -/
def joinParts : List String → String
  | [] => ""
  | [p] => p
  | p :: rest => p ++ " " ++ joinParts rest

/-- Model of `formatDuration` from utils: floor to whole seconds, split into hours,
minutes within the hour, and seconds within the minute; render hours and
minutes when nonzero, seconds when nonzero and hours are zero; the empty
join (the only falsy join result) falls back to "0m". -/
def formatDuration (ms : ℤ) : String :=
  let totalSeconds := Int.fdiv ms 1000
  let hours := Int.fdiv totalSeconds 3600
  let minutes := Int.fdiv (Int.tmod totalSeconds 3600) 60
  let seconds := Int.tmod totalSeconds 60
  let parts :=
    (if hours ≠ 0 then [toString hours ++ "h"] else [])
      ++ (if minutes ≠ 0 then [toString minutes ++ "m"] else [])
      ++ (if seconds ≠ 0 ∧ hours = 0 then [toString seconds ++ "s"] else [])
  let joined := joinParts parts
  if joined = "" then "0m" else joined

theorem ne_empty_of_len_pos (s : String) (h : 0 < s.length) : s ≠ "" := by
  intro he
  rw [he, show ("" : String).length = 0 from rfl] at h
  exact absurd h (lt_irrefl 0)

theorem append_ne_empty (a b : String) (hb : 0 < b.length) : a ++ b ≠ "" := by
  intro he
  have hlen := congrArg String.length he
  rw [String.length_append, show ("" : String).length = 0 from rfl] at hlen
  omega

/-- The shape of the assemble-and-join step of `formatDuration`: which parts
appear, given the three render conditions, assuming the seconds condition
excludes the hours one. -/
theorem formatOut (hP mP sP : Prop) [Decidable hP] [Decidable mP] [Decidable sP]
    (Hs Ms Ss : String) (hH : 0 < Hs.length) (hM : 0 < Ms.length) (hS : 0 < Ss.length)
    (hexcl : sP → ¬hP) :
    (let parts := (if hP then [Hs] else []) ++ (if mP then [Ms] else [])
        ++ (if sP then [Ss] else [])
     if joinParts parts = "" then "0m" else joinParts parts)
      = if hP then (if mP then Hs ++ " " ++ Ms else Hs)
        else if mP then (if sP then Ms ++ " " ++ Ss else Ms)
        else if sP then Ss
        else "0m" := by
  have n1 := ne_empty_of_len_pos Hs hH
  have n2 := ne_empty_of_len_pos Ms hM
  have n3 := ne_empty_of_len_pos Ss hS
  have n4 := append_ne_empty (Hs ++ " ") Ms hM
  have n5 := append_ne_empty (Ms ++ " ") Ss hS
  by_cases h1 : hP <;> by_cases h2 : mP <;> by_cases h3 : sP <;>
    first
      | exact (hexcl h3 h1).elim
      | simp [h1, h2, h3, joinParts, n1, n2, n3, n4, n5]

/-- C9 (amended): `formatDuration` shows hours and minutes whenever nonzero,
shows seconds exactly when seconds are nonzero and hours are zero (minutes
may also be shown then), and renders "0m" for zero; in particular 90000 ms
renders as "1m 30s". -/
theorem formatDuration_spec :
    (∀ ms : ℤ,
      formatDuration ms =
        if Int.fdiv (Int.fdiv ms 1000) 3600 ≠ 0 then
          (if Int.fdiv (Int.tmod (Int.fdiv ms 1000) 3600) 60 ≠ 0 then
            toString (Int.fdiv (Int.fdiv ms 1000) 3600) ++ "h" ++ " "
              ++ (toString (Int.fdiv (Int.tmod (Int.fdiv ms 1000) 3600) 60) ++ "m")
          else toString (Int.fdiv (Int.fdiv ms 1000) 3600) ++ "h")
        else if Int.fdiv (Int.tmod (Int.fdiv ms 1000) 3600) 60 ≠ 0 then
          (if Int.tmod (Int.fdiv ms 1000) 60 ≠ 0 ∧ Int.fdiv (Int.fdiv ms 1000) 3600 = 0 then
            toString (Int.fdiv (Int.tmod (Int.fdiv ms 1000) 3600) 60) ++ "m" ++ " "
              ++ (toString (Int.tmod (Int.fdiv ms 1000) 60) ++ "s")
          else toString (Int.fdiv (Int.tmod (Int.fdiv ms 1000) 3600) 60) ++ "m")
        else if Int.tmod (Int.fdiv ms 1000) 60 ≠ 0 ∧ Int.fdiv (Int.fdiv ms 1000) 3600 = 0 then
          toString (Int.tmod (Int.fdiv ms 1000) 60) ++ "s"
        else "0m")
      ∧ formatDuration 0 = "0m"
      ∧ formatDuration 90000 = "1m 30s"
      ∧ formatDuration 45000 = "45s"
      ∧ formatDuration 3661000 = "1h 1m" := by
  refine ⟨?_, rfl, rfl, rfl, rfl⟩
  intro ms
  unfold formatDuration
  have hlen : ∀ (n : ℤ) (c : String), c.length = 1 → 0 < (toString n ++ c).length := by
    intro n c hc
    rw [String.length_append, hc]
    omega
  exact formatOut _ _ _ _ _ _
    (hlen _ "h" rfl) (hlen _ "m" rfl) (hlen _ "s" rfl)
    (fun hc hne => hne hc.2)

/-- Counterexample to C9 as stated: 90000 ms (1m30s) does not render as
"1m"; the code renders seconds whenever hours are zero, minutes included. -/
theorem formatDuration_claim_false : formatDuration 90000 ≠ "1m" := by decide

end DurationFormat

section Persistence

/-- A parsed JSON document, the data JS `JSON.parse` yields on success and
`JSON.stringify` serializes: null, booleans, numbers, strings, arrays and
key-ordered objects. -/
inductive Jval where
  | null : Jval
  | bool (b : Bool) : Jval
  | num (x : ℝ) : Jval
  | str (s : String) : Jval
  | arr (elems : List Jval) : Jval
  | obj (fields : List (String × Jval)) : Jval

/-- JS property read on a parsed value: a key lookup on an object, and
`undefined` (here `none`) on anything else. -/
def Jval.lookupField : Jval → String → Option Jval
  | .obj fields, k => fields.lookup k
  | _, _ => none

/-- A present field of `JSON.stringify` output; an `undefined` (`none`)
value is omitted entirely, as stringify does. -/
def optField (k : String) (v : Option Jval) : List (String × Jval) :=
  match v with
  | some j => [(k, j)]
  | none => []

noncomputable def encodeGeo (g : GeoLocation) : Jval :=
  .obj [("lat", .num g.lat), ("lon", .num g.lon)]

noncomputable def encodeBase (b : BaseSubstance) : Jval :=
  .obj (optField "type" (b.type.map .str))

noncomputable def encodeContext (c : SessionContext) : Jval :=
  .obj (optField "place" (c.place.map .str)
    ++ optField "weather" (c.weather.map .str)
    ++ optField "noise" (c.noise.map .str)
    ++ optField "light" (c.light.map .str)
    ++ optField "music" (c.music.map .str)
    ++ optField "activity" (c.activity.map .str))

noncomputable def encodeSocial (so : SocialContext) : Jval :=
  .obj (optField "numPeopleSharing" (so.numPeopleSharing.map .num))

noncomputable def encodeUser (u : UserState) : Jval :=
  .obj (optField "lastMeal" (u.lastMeal.map .str)
    ++ optField "mood" (u.mood.map .str)
    ++ optField "intention" (u.intention.map .str))

noncomputable def encodeConsumption (ev : ConsumptionEvent) : Jval :=
  .obj ([("timestamp", .num ev.timestamp), ("weightGrams", .num ev.weightGrams),
         ("thcPercent", .num ev.thcPercent), ("method", .str ev.method)]
    ++ optField "notes" (ev.notes.map .str))

/-- The `JSON.stringify` image of a `Session`, field by field in declaration
order, optional fields omitted when absent. -/
noncomputable def encodeSession (s : Session) : Jval :=
  .obj ([("id", .str s.id), ("startTime", .num s.startTime)]
    ++ optField "endTime" (s.endTime.map .num)
    ++ [("active", .bool s.active)]
    ++ optField "geo" (s.geo.map encodeGeo)
    ++ optField "timeOfDay" (s.timeOfDay.map .str)
    ++ optField "baseSubstance" (s.baseSubstance.map encodeBase)
    ++ [("context", encodeContext s.context), ("social", encodeSocial s.social),
        ("user", encodeUser s.user),
        ("supplements", .arr (s.supplements.map .str)),
        ("effects", .arr (s.effects.map .str))]
    ++ optField "notes" (s.notes.map .str)
    ++ [("consumptions", .arr (s.consumptions.map encodeConsumption))])

/-- Reading a required number property off a parsed value (0 if absent: the
TS cast is unchecked, so this default is never observed on encoded data). -/
noncomputable def getNum (j : Jval) (k : String) : ℝ :=
  match j.lookupField k with
  | some (.num x) => x
  | _ => 0

noncomputable def getNumOpt (j : Jval) (k : String) : Option ℝ :=
  match j.lookupField k with
  | some (.num x) => some x
  | _ => none

def getStr (j : Jval) (k : String) : String :=
  match j.lookupField k with
  | some (.str s) => s
  | _ => ""

def getStrOpt (j : Jval) (k : String) : Option String :=
  match j.lookupField k with
  | some (.str s) => some s
  | _ => none

def getBool (j : Jval) (k : String) : Bool :=
  match j.lookupField k with
  | some (.bool b) => b
  | _ => false

def asStrD : Jval → String
  | .str s => s
  | _ => ""

def getStrList (j : Jval) (k : String) : List String :=
  match j.lookupField k with
  | some (.arr l) => l.map asStrD
  | _ => []

def getArr (j : Jval) (k : String) : List Jval :=
  match j.lookupField k with
  | some (.arr l) => l
  | _ => []

noncomputable def decodeGeo (j : Jval) : GeoLocation :=
  ⟨getNum j "lat", getNum j "lon"⟩

def decodeBase (j : Jval) : BaseSubstance :=
  ⟨getStrOpt j "type"⟩

def decodeContext (j : Jval) : SessionContext :=
  ⟨getStrOpt j "place", getStrOpt j "weather", getStrOpt j "noise",
   getStrOpt j "light", getStrOpt j "music", getStrOpt j "activity"⟩

noncomputable def decodeSocial (j : Jval) : SocialContext :=
  ⟨getNumOpt j "numPeopleSharing"⟩

def decodeUser (j : Jval) : UserState :=
  ⟨getStrOpt j "lastMeal", getStrOpt j "mood", getStrOpt j "intention"⟩

noncomputable def decodeConsumption (j : Jval) : ConsumptionEvent :=
  ⟨getNum j "timestamp", getNum j "weightGrams", getNum j "thcPercent",
   getStr j "method", getStrOpt j "notes"⟩

/-- How the program reads a parsed JSON object back as a `Session` (the
TS source casts unchecked; this spells out the property reads the rest of
the code performs on it). -/
noncomputable def decodeSession (j : Jval) : Session :=
  ⟨getStr j "id", getNum j "startTime", getNumOpt j "endTime", getBool j "active",
   (j.lookupField "geo").map decodeGeo, getStrOpt j "timeOfDay",
   (j.lookupField "baseSubstance").map decodeBase,
   decodeContext ((j.lookupField "context").getD (.obj [])),
   decodeSocial ((j.lookupField "social").getD (.obj [])),
   decodeUser ((j.lookupField "user").getD (.obj [])),
   getStrList j "supplements", getStrList j "effects", getStrOpt j "notes",
   (getArr j "consumptions").map decodeConsumption⟩

/-- The `localStorage` cell under the fixed storage key, composed with
`JSON.parse`: absent, a string `JSON.parse` throws on, or a string that
parses to a JSON document. -/
inductive Stored where
  | empty : Stored
  | malformed (raw : String) : Stored
  | val (j : Jval) : Stored

/-- Model of `loadSessions` from utils: empty cell and parse failure yield the empty
list; a bare array is accepted as the session list; an object with an array
`sessions` property yields that list; anything else yields the empty list. -/
noncomputable def loadSessions : Stored → List Session
  | .empty => []
  | .malformed _ => []
  | .val (.arr l) => l.map decodeSession
  | .val (.obj fields) =>
      match fields.lookup "sessions" with
      | some (.arr l) => l.map decodeSession
      | _ => []
  | .val _ => []

/-- Model of `saveSessions` from utils: stringify the wrapper object
`(sessions, createdAt, version 1)` into the storage cell; JSON round-trip
fidelity of stringify/parse is assumed of the platform. -/
noncomputable def saveSessions (now : ℝ) (sessions : List Session) : Stored :=
  .val (.obj [("sessions", .arr (sessions.map encodeSession)),
              ("createdAt", .num now), ("version", .num 1)])

end Persistence

section RoundTrip

theorem decodeContext_encodeContext (c : SessionContext) :
    decodeContext (encodeContext c) = c := by
  rcases c with ⟨p, w, n, l, m, a⟩
  cases p <;> cases w <;> cases n <;> cases l <;> cases m <;> cases a <;> rfl

theorem decodeSocial_encodeSocial (so : SocialContext) :
    decodeSocial (encodeSocial so) = so := by
  rcases so with ⟨sh⟩
  cases sh <;> rfl

theorem decodeUser_encodeUser (u : UserState) :
    decodeUser (encodeUser u) = u := by
  rcases u with ⟨lm, md, it⟩
  cases lm <;> cases md <;> cases it <;> rfl

theorem map_asStrD_str (l : List String) : (l.map Jval.str).map asStrD = l := by
  induction l with
  | nil => rfl
  | cons x t ih => simp [asStrD, ih]

theorem decodeConsumption_encodeConsumption (ev : ConsumptionEvent) :
    decodeConsumption (encodeConsumption ev) = ev := by
  rcases ev with ⟨t, w, p, m, n⟩
  cases n <;> rfl

theorem map_decode_encode_consumption (l : List ConsumptionEvent) :
    (l.map encodeConsumption).map decodeConsumption = l := by
  induction l with
  | nil => rfl
  | cons ev t ih => simp [decodeConsumption_encodeConsumption ev, ih]

set_option maxHeartbeats 3200000 in
theorem decodeSession_encodeSession (s : Session) :
    decodeSession (encodeSession s) = s := by
  rcases s with ⟨sid, st, et, ac, geo, tod, base, ctx, soc, usr, supp, eff, nts, cons⟩
  have hctx := decodeContext_encodeContext ctx
  have hsoc := decodeSocial_encodeSocial soc
  have husr := decodeUser_encodeUser usr
  have hsupp := map_asStrD_str supp
  have heff := map_asStrD_str eff
  have hcons := map_decode_encode_consumption cons
  apply Session.ext
  · rfl
  · rfl
  · cases et <;> cases geo <;> cases tod <;> cases base <;> cases nts <;> rfl
  · cases et <;> cases geo <;> cases tod <;> cases base <;> cases nts <;> rfl
  · cases et <;> cases geo <;> cases tod <;> cases base <;> cases nts <;> rfl
  · cases et <;> cases geo <;> cases tod <;> cases base <;> cases nts <;> rfl
  · cases et <;> cases geo <;> cases tod <;> cases nts <;>
      rcases base with _ | ⟨_ | bt⟩ <;> rfl
  · cases et <;> cases geo <;> cases tod <;> cases base <;> cases nts <;> exact hctx
  · cases et <;> cases geo <;> cases tod <;> cases base <;> cases nts <;> exact hsoc
  · cases et <;> cases geo <;> cases tod <;> cases base <;> cases nts <;> exact husr
  · cases et <;> cases geo <;> cases tod <;> cases base <;> cases nts <;> exact hsupp
  · cases et <;> cases geo <;> cases tod <;> cases base <;> cases nts <;> exact heff
  · cases et <;> cases geo <;> cases tod <;> cases base <;> cases nts <;> rfl
  · cases et <;> cases geo <;> cases tod <;> cases base <;> cases nts <;> exact hcons

theorem map_decode_encode (l : List Session) :
    (l.map encodeSession).map decodeSession = l := by
  induction l with
  | nil => rfl
  | cons s t ih => simp [decodeSession_encodeSession s, ih]

/-- C5: saving any session list and loading it back is the identity,
field for field, the empty list included. -/
theorem saveLoad_roundtrip (now : ℝ) (sessions : List Session) :
    loadSessions (saveSessions now sessions) = sessions := by
  show (sessions.map encodeSession).map decodeSession = sessions
  exact map_decode_encode sessions

/-- C6: `loadSessions` accepts a bare legacy array identically to the
wrapped form, and yields the empty list on an absent value, a string
`JSON.parse` rejects, a wrapper whose `sessions` is not an array, and any
other non-array shape — always returning, never throwing. -/
theorem loadSessions_lenient :
    (∀ (now : ℝ) (sessions : List Session),
      loadSessions (.val (.arr (sessions.map encodeSession)))
        = loadSessions (saveSessions now sessions))
      ∧ loadSessions (.malformed "not json") = []
      ∧ loadSessions .empty = []
      ∧ loadSessions (.val (.obj [("sessions", .str "oops")])) = []
      ∧ (∀ s : String, loadSessions (.val (.str s)) = [])
      ∧ loadSessions (.val .null) = [] :=
  ⟨fun _ _ => rfl, rfl, rfl, rfl, fun _ => rfl, rfl⟩

end RoundTrip
